import Mathlib

/-!
Verification development for the tokenizer / document-model core of the
genetic-text-summarization repository (`src/preprocess.py`).

Text is modelled as `List Char`.  The module-level compiled regex

  PATTERN = ([A-Za-z-]+)|([].,;:?!()[{}_@#/&$%~`\'"*=+-])|([0-9]+(?:[.,][0-9]+)*?)|(\s+)

is embedded by its (deterministic) matching semantics: `re.match` tries the
four alternatives in order at position 0; each alternative starts with a
positive character class, so the alternative that wins is decided by the
first character, and the matched extent is the greedy run of that
alternative's leading class.  Note that the `(?:[.,][0-9]+)*?` group of the
number alternative is *lazy*: under `re.match` (prefix matching, nothing
forcing further consumption) it always matches the empty string, so a
number match is exactly the leading digit run.  Under `re.fullmatch`
(used by the `is*` predicates) the lazy group expands as needed to cover
the whole string.
-/

namespace Preprocess

/-- Decidable equality on `Except`, used to evaluate classification results
on concrete inputs. -/
instance {ε α : Type} [DecidableEq ε] [DecidableEq α] : DecidableEq (Except ε α) := fun
  | .ok a, .ok b =>
    if h : a = b then .isTrue (by rw [h]) else .isFalse (fun hh => h (Except.ok.inj hh))
  | .ok _, .error _ => .isFalse Except.noConfusion
  | .error _, .ok _ => .isFalse Except.noConfusion
  | .error e, .error f =>
    if h : e = f then .isTrue (by rw [h]) else .isFalse (fun hh => h (Except.error.inj hh))

/-- Character class `[A-Za-z-]` of the Word alternative (codes 65-90, 97-122, 45 = hyphen). -/
def isWordChar (c : Char) : Bool :=
  (65 ≤ c.toNat && c.toNat ≤ 90) || (97 ≤ c.toNat && c.toNat ≤ 122) || c.toNat == 45

/-- Code points of the punctuation class `[].,;:?!()[{}_@#/&$%~`'"*=+-]`:
`] . , ; : ? ! ( ) [ { } _ @ # / & $ % ~ backquote apostrophe quote * = + -`. -/
def punctCodes : List Nat :=
  [93, 46, 44, 59, 58, 63, 33, 40, 41, 91, 123, 125, 95, 64, 35,
   47, 38, 36, 37, 126, 96, 39, 34, 42, 61, 43, 45]

/-- Membership in the punctuation character class. -/
def isPunctChar (c : Char) : Bool := punctCodes.contains c.toNat

/-- Character class `[0-9]` (codes 48-57). -/
def isDigitChar (c : Char) : Bool := 48 ≤ c.toNat && c.toNat ≤ 57

/-- Python's `\s` (Unicode whitespace): tab..carriage-return (9-13), 28-31,
space (32), next-line (133), no-break space (160), ogham space (5760),
en-quad..hair space (8192-8202), line/paragraph separator (8232/8233),
narrow no-break (8239), medium mathematical space (8287), ideographic
space (12288). -/
def isSpaceChar (c : Char) : Bool :=
  (9 ≤ c.toNat && c.toNat ≤ 13) || c.toNat == 32 ||
  (28 ≤ c.toNat && c.toNat ≤ 31) || c.toNat == 133 || c.toNat == 160 ||
  c.toNat == 5760 || (8192 ≤ c.toNat && c.toNat ≤ 8202) ||
  c.toNat == 8232 || c.toNat == 8233 || c.toNat == 8239 ||
  c.toNat == 8287 || c.toNat == 12288

/-- The token subclasses `Word`, `Punctuation`, `Number`, `Whitespace` of
`preprocess.Token`, as a tagged union carrying the raw text. -/
inductive Token where
  | word (t : List Char)
  | punctuation (t : List Char)
  | number (t : List Char)
  | whitespace (t : List Char)
  deriving DecidableEq, Repr

namespace Token

/-- The raw text `self.token` of a token. -/
def text : Token → List Char
  | word t | punctuation t | number t | whitespace t => t

/-- `Token.__len__`: `len(self.token)`. -/
def length (t : Token) : Nat := t.text.length

/-- Full match of the first alternative `[A-Za-z-]+` against a whole string. -/
def matchesWordAlt (t : List Char) : Bool := !t.isEmpty && t.all isWordChar

/-- Full match of the second alternative (a single punctuation-class character). -/
def matchesPunctAlt : List Char → Bool
  | [c] => isPunctChar c
  | _ => false

/-- Separator characters `[.,]` of the number alternative (codes 46, 44). -/
def isSepChar (c : Char) : Bool := c.toNat == 46 || c.toNat == 44

/-- Automaton for the tail of the number language, read after a digit run:
zero or more groups of one `.` or `,` followed by one or more digits.
`needDigit` records that the previous character was a separator, so at
least one digit must still follow before the string may end or a new
separator may appear. -/
def numberGroups (needDigit : Bool) : List Char → Bool
  | [] => !needDigit
  | c :: rest =>
    if isDigitChar c then numberGroups false rest
    else if isSepChar c then !needDigit && numberGroups true rest
    else false

/-- Full match of the third alternative `[0-9]+(?:[.,][0-9]+)*?` against a
whole string (under `fullmatch` the lazy group expands as needed, so this
is plain membership in the language digits (sep digits)*). -/
def matchesNumberAlt (t : List Char) : Bool :=
  match t with
  | [] => false
  | c :: rest => isDigitChar c && numberGroups false rest

/-- Full match of the fourth alternative `\s+` against a whole string. -/
def matchesSpaceAlt (t : List Char) : Bool := !t.isEmpty && t.all isSpaceChar

/-- `Token.isword`: `_pattern.fullmatch(self.token)` has group 1.
`re.fullmatch` of the alternation commits to the first alternative (in
pattern order) that can match the whole string. -/
def isword (tok : Token) : Bool := matchesWordAlt tok.text

/-- `Token.ispunct`: the full match exists and group 2 is set, i.e. the
word alternative does not fullmatch but the punctuation alternative does. -/
def ispunct (tok : Token) : Bool := !matchesWordAlt tok.text && matchesPunctAlt tok.text

/-- `Token.isnumber`: the full match exists and group 3 is set. -/
def isnumber (tok : Token) : Bool :=
  !matchesWordAlt tok.text && !matchesPunctAlt tok.text && matchesNumberAlt tok.text

/-- `Token.iswhitespace`: the full match exists and group 4 is set. -/
def iswhitespace (tok : Token) : Bool :=
  !matchesWordAlt tok.text && !matchesPunctAlt tok.text && !matchesNumberAlt tok.text &&
    matchesSpaceAlt tok.text

/-- `Punctuation.isend`: `self.token in '.?!'`.  Tokens reaching this test
have single-character text, where Python's substring test is equality with
`.`, `?` or `!` (codes 46, 63, 33). -/
def isend (tok : Token) : Bool :=
  tok.text == [Char.ofNat 46] || tok.text == [Char.ofNat 63] || tok.text == [Char.ofNat 33]

/-- `Token.match(text)`: `None` on empty input, otherwise the first
alternative whose leading character class accepts the first character wins
and consumes its greedy run (resp. exactly one character for punctuation;
the lazy number tail consumes nothing under prefix matching).  If no
alternative matches, `ValueError(f'Invalid token: {text}')` is raised. -/
def matchToken (s : List Char) : Except (List Char) (Option Token) :=
  match s with
  | [] => .ok none
  | c :: _ =>
    if isWordChar c then .ok (some (word (s.takeWhile isWordChar)))
    else if isPunctChar c then .ok (some (punctuation [c]))
    else if isDigitChar c then .ok (some (number (s.takeWhile isDigitChar)))
    else if isSpaceChar c then .ok (some (whitespace (s.takeWhile isSpaceChar)))
    else .error s

end Token

/-- The four token kinds, used to tag construction errors. -/
inductive Kind where
  | word | punctuation | number | whitespace
  deriving DecidableEq, Repr

/-- The two `ValueError` shapes of `preprocess.py`: `Invalid token: {text}`
from `Token.match`, and `Invalid word/punctuation/number/whitespace: {text}`
from the kind-specific constructors. -/
inductive PreprocessError where
  | invalidToken (text : List Char)
  | invalidConstruction (kind : Kind) (text : List Char)
  deriving DecidableEq, Repr

/-- `Word.__init__`: stores the text, raising unless `isword()` holds. -/
def mkWord (t : List Char) : Except PreprocessError Token :=
  if (Token.word t).isword then .ok (Token.word t)
  else .error (.invalidConstruction .word t)

/-- `Punctuation.__init__`: stores the text, raising unless `ispunct()` holds. -/
def mkPunctuation (t : List Char) : Except PreprocessError Token :=
  if (Token.punctuation t).ispunct then .ok (Token.punctuation t)
  else .error (.invalidConstruction .punctuation t)

/-- `Number.__init__`: stores the text, raising unless `isnumber()` holds. -/
def mkNumber (t : List Char) : Except PreprocessError Token :=
  if (Token.number t).isnumber then .ok (Token.number t)
  else .error (.invalidConstruction .number t)

/-- `Whitespace.__init__`: stores the text, raising unless `iswhitespace()` holds. -/
def mkWhitespace (t : List Char) : Except PreprocessError Token :=
  if (Token.whitespace t).iswhitespace then .ok (Token.whitespace t)
  else .error (.invalidConstruction .whitespace t)

/-- `Token.match` lifted to the error type of the document builder. -/
def classify (s : List Char) : Except PreprocessError (Option Token) :=
  match Token.matchToken s with
  | .ok r => .ok r
  | .error t => .error (.invalidToken t)

/-- ASCII lower-case table, modelling Python `str.lower` character-wise on
the ASCII range (the classifier only produces Word tokens over `[A-Za-z-]`). -/
def lowerTable : List (Char × Char) :=
  [('A', 'a'), ('B', 'b'), ('C', 'c'), ('D', 'd'), ('E', 'e'), ('F', 'f'),
   ('G', 'g'), ('H', 'h'), ('I', 'i'), ('J', 'j'), ('K', 'k'), ('L', 'l'),
   ('M', 'm'), ('N', 'n'), ('O', 'o'), ('P', 'p'), ('Q', 'q'), ('R', 'r'),
   ('S', 's'), ('T', 't'), ('U', 'u'), ('V', 'v'), ('W', 'w'), ('X', 'x'),
   ('Y', 'y'), ('Z', 'z')]

/-- Lower-casing of one character. -/
def lowerChar (c : Char) : Char :=
  match lowerTable.find? (fun p => p.1 == c) with
  | some p => p.2
  | none => c

/-- `Word.lower` on the union: only the Word constructor lower-cases its
text (`Word.transform` rebuilds a Word). -/
def Token.lower : Token → Token
  | .word t => .word (t.map lowerChar)
  | tok => tok

/-- `Sentence`: a list subclass holding tokens. -/
abbrev Sentence := List Token

/-- `Paragraph`: a list subclass holding sentences. -/
abbrev Paragraph := List Sentence

/-- `Document`: a list subclass holding paragraphs. -/
abbrev Document := List Paragraph

/-- `Sentence.lower`: map over the tokens, lower-casing exactly the tokens
whose text satisfies the word predicate. -/
def Sentence.lower (s : Sentence) : Sentence :=
  s.map (fun tok => if tok.isword then tok.lower else tok)

/-- `Sentence.filter`: keep the tokens satisfying the given predicate. -/
def Sentence.filterTokens (s : Sentence) (f : Token → Bool) : Sentence := s.filter f

/-- `Sentence.without_punct`: drop tokens whose `ispunct()` holds. -/
def Sentence.without_punct (s : Sentence) : Sentence :=
  s.filterTokens (fun tok => !tok.ispunct)

/-- `Sentence.without_punct_exceptend`: drop punctuation except terminal. -/
def Sentence.without_punct_exceptend (s : Sentence) : Sentence :=
  s.filterTokens (fun tok => !tok.ispunct || tok.isend)

/-- `Sentence.without_whitespace`: drop tokens whose `iswhitespace()` holds. -/
def Sentence.without_whitespace (s : Sentence) : Sentence :=
  s.filterTokens (fun tok => !tok.iswhitespace)

/-- `Sentence.without_number`: drop tokens whose `isnumber()` holds. -/
def Sentence.without_number (s : Sentence) : Sentence :=
  s.filterTokens (fun tok => !tok.isnumber)

/-- `Sentence.without`: drop tokens whose raw text is one of the given
literals. -/
def Sentence.without (s : Sentence) (literals : List (List Char)) : Sentence :=
  s.filterTokens (fun tok => !literals.contains tok.text)

/-- `Sentence.__str__`: concatenation of the tokens' raw text. -/
def Sentence.str (s : Sentence) : List Char := (s.map Token.text).flatten

/-- `Paragraph.lower`. -/
def Paragraph.lower (p : Paragraph) : Paragraph := p.map Sentence.lower

/-- `Paragraph.without_punct`. -/
def Paragraph.without_punct (p : Paragraph) : Paragraph := p.map Sentence.without_punct

/-- `Paragraph.without_punct_exceptend`. -/
def Paragraph.without_punct_exceptend (p : Paragraph) : Paragraph :=
  p.map Sentence.without_punct_exceptend

/-- `Paragraph.without_whitespace`. -/
def Paragraph.without_whitespace (p : Paragraph) : Paragraph :=
  p.map Sentence.without_whitespace

/-- `Paragraph.without_number`. -/
def Paragraph.without_number (p : Paragraph) : Paragraph := p.map Sentence.without_number

/-- `Paragraph.without`. -/
def Paragraph.without (p : Paragraph) (literals : List (List Char)) : Paragraph :=
  p.map (fun s => s.without literals)

/-- `Paragraph.__str__`: concatenation of the sentences' text. -/
def Paragraph.str (p : Paragraph) : List Char := (p.map Sentence.str).flatten

/-- `Document.lower`. -/
def Document.lower (d : Document) : Document := d.map Paragraph.lower

/-- `Document.without_punct`. -/
def Document.without_punct (d : Document) : Document := d.map Paragraph.without_punct

/-- `Document.without_punct_exceptend`. -/
def Document.without_punct_exceptend (d : Document) : Document :=
  d.map Paragraph.without_punct_exceptend

/-- `Document.without_whitespace`. -/
def Document.without_whitespace (d : Document) : Document :=
  d.map Paragraph.without_whitespace

/-- `Document.without_number`. -/
def Document.without_number (d : Document) : Document := d.map Paragraph.without_number

/-- `Document.without`. -/
def Document.without (d : Document) (literals : List (List Char)) : Document :=
  d.map (fun p => p.without literals)

/-- `Document.__str__`: paragraphs joined by a blank line (two newlines). -/
def Document.str (d : Document) : List Char :=
  List.intercalate [Char.ofNat 10, Char.ofNat 10] (d.map Paragraph.str)

/-- The per-line loop of `Document._paragraph`, with an explicit fuel
argument making the recursion structural (`Document._paragraph` supplies
`line.length + 1`, which is enough fuel because every classified token
consumes at least one character).  On each successful classification the
token joins the in-progress sentence; reaching a terminal punctuation
token flushes the sentence into the paragraph; exhaustion of the line
returns the paragraph, discarding the in-progress sentence. -/
def buildParagraphF : Nat → List Char → Sentence → Paragraph → Except PreprocessError Paragraph
  | 0, _, _, paragraph => .ok paragraph
  | fuel + 1, line, sentence, paragraph =>
    match classify line with
    | .error e => .error e
    | .ok none => .ok paragraph
    | .ok (some tok) =>
      if tok.ispunct && tok.isend then
        buildParagraphF fuel (line.drop tok.length) [] (paragraph ++ [sentence ++ [tok]])
      else
        buildParagraphF fuel (line.drop tok.length) (sentence ++ [tok]) paragraph

/-- `Document._paragraph(line)`: build one paragraph from one line. -/
def Document._paragraph (line : List Char) : Except PreprocessError Paragraph :=
  buildParagraphF (line.length + 1) line [] []

/-- Repeated classification of one line into its token list, with fuel as
in `buildParagraphF`; used to state properties about the token stream of a
line. -/
def tokenizeF : Nat → List Char → Except PreprocessError (List Token)
  | 0, _ => .ok []
  | fuel + 1, s =>
    match classify s with
    | .error e => .error e
    | .ok none => .ok []
    | .ok (some tok) => (tokenizeF fuel (s.drop tok.length)).map (tok :: ·)

/-- The token stream of one line. -/
def tokenize (s : List Char) : Except PreprocessError (List Token) :=
  tokenizeF (s.length + 1) s

/-- Code points after which `str.splitlines` breaks a line: line feed (10),
vertical tab (11), form feed (12), carriage return (13), file/group/record
separator (28-30), next line (133), line separator (8232), paragraph
separator (8233); a 13-10 pair counts as a single break. -/
def lineBreakCodes : List Nat := [10, 11, 12, 13, 28, 29, 30, 133, 8232, 8233]

/-- Line-break test for `str.splitlines`. -/
def isLineBreak (c : Char) : Bool := lineBreakCodes.contains c.toNat

/-- `str.splitlines()`: split at line-break characters (a carriage-return
line-feed pair as one break), not keeping the breaks, with no trailing
empty line. -/
def pySplitlinesAux (cur : List Char) : List Char → List (List Char)
  | [] => if cur.isEmpty then [] else [cur]
  | [c] => if isLineBreak c then [cur] else [cur ++ [c]]
  | c :: c2 :: rest =>
    if c.toNat == 13 && c2.toNat == 10 then cur :: pySplitlinesAux [] rest
    else if isLineBreak c then cur :: pySplitlinesAux [] (c2 :: rest)
    else pySplitlinesAux (cur ++ [c]) (c2 :: rest)

/-- `str.splitlines()` of a whole text. -/
def pySplitlines (text : List Char) : List (List Char) := pySplitlinesAux [] text

/-- `readlines()` of a readable stream over a text whose only line-break
character is `\n` (on such texts universal-newline translation is the
identity): the lines keep their trailing `\n`; a last line without `\n` is
kept as-is. -/
def pyReadlinesAux (cur : List Char) : List Char → List (List Char)
  | [] => if cur.isEmpty then [] else [cur]
  | c :: rest =>
    if c.toNat == 10 then (cur ++ [c]) :: pyReadlinesAux [] rest
    else pyReadlinesAux (cur ++ [c]) rest

/-- `readlines()` of a whole text. -/
def pyReadlines (text : List Char) : List (List Char) := pyReadlinesAux [] text

/-- The list comprehension of `Document.__init__`: one paragraph per line,
the first classification error aborting the whole construction. -/
def buildLines : List (List Char) → Except PreprocessError Document
  | [] => .ok []
  | l :: ls => do
    let p ← Document._paragraph l
    let d ← buildLines ls
    pure (p :: d)

/-- `Document.__init__` on a string source: split into lines, build each. -/
def Document.ofString (text : List Char) : Except PreprocessError Document :=
  buildLines (pySplitlines text)

/-- `Document.__init__` on a readable-stream source: read lines (keeping
terminators), build each. -/
def Document.ofStream (text : List Char) : Except PreprocessError Document :=
  buildLines (pyReadlines text)

/-- Some alternative of the pattern fully matches the given string; a
prefix of the remaining text satisfying this is exactly what `re.match`
of the alternation can consume. -/
def Token.matchesAnyAlt (t : List Char) : Bool :=
  Token.matchesWordAlt t || Token.matchesPunctAlt t ||
    Token.matchesNumberAlt t || Token.matchesSpaceAlt t

/-- Extends the offending text of an `invalidToken` error by the trailing
line feed kept by stream reading; other errors unchanged. -/
def errNL : PreprocessError → PreprocessError
  | .invalidToken t => .invalidToken (t ++ [Char.ofNat 10])
  | e => e

/-- Relation between a line produced by `str.splitlines` and the
corresponding line produced by stream reading: the latter may keep a
trailing line feed. -/
def lineRel (a b : List Char) : Prop := b = a ∨ b = a ++ [Char.ofNat 10]

end Preprocess

-- temporary sanity checks
example : Preprocess.Token.matchToken ['-', 'a', 'b'] =
    .ok (some (.word ['-', 'a', 'b'])) := by decide
example : Preprocess.Token.matchToken ['1', '2', '.', '3', '4'] =
    .ok (some (.number ['1', '2'])) := by decide
example : Preprocess.Token.matchesNumberAlt ['1', '2', '.', '3', '4'] = true := by decide
example : Preprocess.Token.matchToken ['.', 'a'] =
    .ok (some (.punctuation ['.'])) := by decide
example : (Preprocess.Token.punctuation ['.']).isend = true := by decide
example : Preprocess.Token.matchToken "12.345,67".data =
    .ok (some (.number "12".data)) := by decide

namespace Preprocess

/-! ### Character-class facts -/

/-- A digit is not a word character. -/
theorem isWordChar_eq_false_of_digit {c : Char} (h : isDigitChar c = true) :
    isWordChar c = false := by
  simp only [isDigitChar, decide_eq_true_eq, Bool.and_eq_true] at h
  simp only [isWordChar, Bool.or_eq_false_iff, Bool.and_eq_false_iff,
    decide_eq_false_iff_not, beq_eq_false_iff_ne, ne_eq]
  omega

/-- A whitespace character is not a word character. -/
theorem isWordChar_eq_false_of_space {c : Char} (h : isSpaceChar c = true) :
    isWordChar c = false := by
  simp only [isSpaceChar, Bool.or_eq_true, Bool.and_eq_true, decide_eq_true_eq,
    beq_iff_eq] at h
  simp only [isWordChar, Bool.or_eq_false_iff, Bool.and_eq_false_iff,
    decide_eq_false_iff_not, beq_eq_false_iff_ne, ne_eq]
  omega

/-- Unfolding of punctuation-class membership into its code alternatives. -/
theorem isPunctChar_iff {c : Char} :
    isPunctChar c = true ↔ c.toNat ∈ punctCodes := by
  simp [isPunctChar]

/-- A digit is not a punctuation-class character. -/
theorem isPunctChar_eq_false_of_digit {c : Char} (h : isDigitChar c = true) :
    isPunctChar c = false := by
  simp only [isDigitChar, Bool.and_eq_true, decide_eq_true_eq] at h
  rw [Bool.eq_false_iff]
  intro hp
  rw [isPunctChar_iff] at hp
  simp only [punctCodes, List.mem_cons, List.not_mem_nil, or_false] at hp
  omega

/-- A whitespace character is not a punctuation-class character. -/
theorem isPunctChar_eq_false_of_space {c : Char} (h : isSpaceChar c = true) :
    isPunctChar c = false := by
  simp only [isSpaceChar, Bool.or_eq_true, Bool.and_eq_true, decide_eq_true_eq,
    beq_iff_eq] at h
  rw [Bool.eq_false_iff]
  intro hp
  rw [isPunctChar_iff] at hp
  simp only [punctCodes, List.mem_cons, List.not_mem_nil, or_false] at hp
  omega

/-- A whitespace character is not a digit. -/
theorem isDigitChar_eq_false_of_space {c : Char} (h : isSpaceChar c = true) :
    isDigitChar c = false := by
  simp only [isSpaceChar, Bool.or_eq_true, Bool.and_eq_true, decide_eq_true_eq,
    beq_iff_eq] at h
  simp only [isDigitChar, Bool.and_eq_false_iff, decide_eq_false_iff_not]
  omega

/-! ### Facts about `Token.matchToken` -/

namespace Token

/-- Classification returns `none` exactly on the empty remaining text. -/
theorem matchToken_none_iff {s : List Char} :
    matchToken s = .ok none ↔ s = [] := by
  cases s with
  | nil => simp [matchToken]
  | cons c rest =>
    simp only [matchToken]
    constructor
    · intro h
      split_ifs at h <;> cases h
    · intro h
      cases h

/-- Dropping the length of the matched prefix of `takeWhile` leaves
`dropWhile`. -/
theorem drop_length_takeWhile {p : Char → Bool} (l : List Char) :
    l.drop (l.takeWhile p).length = l.dropWhile p := by
  induction l with
  | nil => rfl
  | cons c rest ih =>
    by_cases h : p c <;>
      simp [List.takeWhile_cons, List.dropWhile_cons, h, ih]

/-- A successfully classified token is a non-empty prefix of the remaining
text: its text followed by the rest of the line reassembles the line. -/
theorem matchToken_some_spec {s : List Char} {t : Token}
    (h : matchToken s = .ok (some t)) :
    0 < t.length ∧ t.text ++ s.drop t.length = s := by
  cases s with
  | nil => cases h
  | cons c rest =>
    simp only [matchToken] at h
    split_ifs at h with h1 h2 h3 h4 <;>
      simp only [Except.ok.injEq, Option.some.injEq] at h <;> subst h <;>
      simp only [Token.length, Token.text]
    · constructor
      · simp [List.takeWhile_cons_of_pos h1]
      · rw [drop_length_takeWhile, List.takeWhile_append_dropWhile]
    · simp
    · constructor
      · simp [List.takeWhile_cons_of_pos h3]
      · rw [drop_length_takeWhile, List.takeWhile_append_dropWhile]
    · constructor
      · simp [List.takeWhile_cons_of_pos h4]
      · rw [drop_length_takeWhile, List.takeWhile_append_dropWhile]

end Token

/-- Characters are equal once their code points are. -/
theorem char_eq_of_toNat_eq {c d : Char} (h : c.toNat = d.toNat) : c = d :=
  Char.eq_of_val_eq (UInt32.ext h)

namespace Token

/-- A word run starting from a word character fully matches the word
alternative. -/
theorem matchesWordAlt_word_run {c : Char} {rest : List Char}
    (h : isWordChar c = true) :
    matchesWordAlt ((c :: rest).takeWhile isWordChar) = true := by
  rw [List.takeWhile_cons_of_pos h]
  simp [matchesWordAlt, h]

/-- A token whose text fully matches the word alternative is not
punctuation. -/
theorem ispunct_eq_false_of_word {l : List Char}
    (h : matchesWordAlt l = true) : (Token.word l).ispunct = false := by
  simp [ispunct, text, h]

/-- A digit run is not punctuation. -/
theorem ispunct_digit_run {c : Char} {rest : List Char}
    (h : isDigitChar c = true) :
    (Token.number ((c :: rest).takeWhile isDigitChar)).ispunct = false := by
  rw [ispunct, List.takeWhile_cons_of_pos h]
  cases hr : rest.takeWhile isDigitChar with
  | nil => simp [text, matchesPunctAlt, isPunctChar_eq_false_of_digit h]
  | cons d r => simp [text, matchesPunctAlt]

/-- A whitespace run is not punctuation. -/
theorem ispunct_space_run {c : Char} {rest : List Char}
    (h : isSpaceChar c = true) :
    (Token.whitespace ((c :: rest).takeWhile isSpaceChar)).ispunct = false := by
  rw [ispunct, List.takeWhile_cons_of_pos h]
  cases hr : rest.takeWhile isSpaceChar with
  | nil => simp [text, matchesPunctAlt, isPunctChar_eq_false_of_space h]
  | cons d r => simp [text, matchesPunctAlt]

/-- A single punctuation-class character that is not a word character is a
punctuation token. -/
theorem ispunct_punct_single {c : Char}
    (hw : isWordChar c = false) (hp : isPunctChar c = true) :
    (Token.punctuation [c]).ispunct = true := by
  simp [ispunct, matchesWordAlt, matchesPunctAlt, text, hw, hp]

/-- Terminality of a single-character token, by code point (46 `.`,
63 `?`, 33 `!`). -/
theorem isend_single_iff {c : Char} :
    isend (Token.punctuation [c]) = true ↔
      (c.toNat = 46 ∨ c.toNat = 63 ∨ c.toNat = 33) := by
  simp only [isend, text, Bool.or_eq_true, beq_iff_eq, List.cons.injEq, and_true]
  constructor
  · rintro ((h | h) | h) <;> subst h <;> simp
  · rintro (h | h | h)
    · exact Or.inl (Or.inl (char_eq_of_toNat_eq (h.trans (by decide))))
    · exact Or.inl (Or.inr (char_eq_of_toNat_eq (h.trans (by decide))))
    · exact Or.inr (char_eq_of_toNat_eq (h.trans (by decide)))

end Token

/-! ### Facts about `classify` and the fueled loops -/

/-- `classify` succeeds exactly as `Token.matchToken` does. -/
theorem classify_eq_ok {s : List Char} {r : Option Token} :
    classify s = .ok r ↔ Token.matchToken s = .ok r := by
  cases h : Token.matchToken s <;> simp [classify, h]

/-- `classify` fails exactly on `Token.matchToken` failures, wrapping the
offending text. -/
theorem classify_eq_error {s : List Char} {e : PreprocessError} :
    classify s = .error e ↔
      ∃ t, e = .invalidToken t ∧ Token.matchToken s = .error t := by
  cases h : Token.matchToken s with
  | ok r => simp [classify, h]
  | error t =>
    simp only [classify, h]
    constructor
    · intro he
      cases he
      exact ⟨t, rfl, rfl⟩
    · rintro ⟨t2, rfl, he⟩
      cases he
      rfl

/-- `classify` returns `none` exactly on the empty remaining text. -/
theorem classify_none_iff {s : List Char} :
    classify s = .ok none ↔ s = [] :=
  classify_eq_ok.trans Token.matchToken_none_iff

/-- A successfully classified token is a non-empty prefix of the line. -/
theorem classify_some_spec {s : List Char} {t : Token}
    (h : classify s = .ok (some t)) :
    0 < t.length ∧ t.text ++ s.drop t.length = s :=
  Token.matchToken_some_spec (classify_eq_ok.mp h)

/-- Case analysis on a successful classification of a non-empty line: the
four alternatives in priority order, each determined by the first
character's class and consuming its greedy run. -/
theorem classify_cases {c : Char} {rest : List Char} {t : Token}
    (h : classify (c :: rest) = .ok (some t)) :
    (isWordChar c = true ∧ t = .word ((c :: rest).takeWhile isWordChar)) ∨
    (isWordChar c = false ∧ isPunctChar c = true ∧ t = .punctuation [c]) ∨
    (isWordChar c = false ∧ isPunctChar c = false ∧ isDigitChar c = true ∧
      t = .number ((c :: rest).takeWhile isDigitChar)) ∨
    (isWordChar c = false ∧ isPunctChar c = false ∧ isDigitChar c = false ∧
      isSpaceChar c = true ∧
      t = .whitespace ((c :: rest).takeWhile isSpaceChar)) := by
  rw [classify_eq_ok] at h
  simp only [Token.matchToken] at h
  split_ifs at h with h1 h2 h3 h4 <;>
    simp only [Except.ok.injEq, Option.some.injEq] at h
  · exact Or.inl ⟨h1, h.symm⟩
  · exact Or.inr (Or.inl ⟨by simpa using h1, h2, h.symm⟩)
  · exact Or.inr (Or.inr (Or.inl ⟨by simpa using h1, by simpa using h2, h3, h.symm⟩))
  · exact Or.inr (Or.inr (Or.inr
      ⟨by simpa using h1, by simpa using h2, by simpa using h3, h4, h.symm⟩))

/-- The builder's sentence-flush guard holds only for a single-character
punctuation token over a terminal code point, which is then the line's
first character. -/
theorem classify_terminal_head {c : Char} {rest : List Char} {t : Token}
    (h : classify (c :: rest) = .ok (some t))
    (hg : (t.ispunct && t.isend) = true) :
    t = .punctuation [c] ∧ (c.toNat = 46 ∨ c.toNat = 63 ∨ c.toNat = 33) := by
  rcases classify_cases h with ⟨h1, rfl⟩ | ⟨h1, h2, rfl⟩ |
    ⟨h1, h2, h3, rfl⟩ | ⟨h1, h2, h3, h4, rfl⟩
  · rw [Token.ispunct_eq_false_of_word (Token.matchesWordAlt_word_run h1)] at hg
    cases hg
  · rw [Bool.and_eq_true] at hg
    exact ⟨rfl, Token.isend_single_iff.mp hg.2⟩
  · rw [Token.ispunct_digit_run h3] at hg
    cases hg
  · rw [Token.ispunct_space_run h4] at hg
    cases hg

/-- The fuel argument of `buildParagraphF` is irrelevant once it exceeds
the line length. -/
theorem buildParagraphF_fuel :
    ∀ (f1 f2 : Nat) (line : List Char) (sentence : Sentence) (paragraph : Paragraph),
      line.length < f1 → line.length < f2 →
      buildParagraphF f1 line sentence paragraph =
        buildParagraphF f2 line sentence paragraph := by
  intro f1
  induction f1 with
  | zero => intro f2 line _ _ h1 _; exact absurd h1 (Nat.not_lt_zero _)
  | succ f1 ih =>
    intro f2 line sentence paragraph h1 h2
    cases f2 with
    | zero => exact absurd h2 (Nat.not_lt_zero _)
    | succ f2 =>
      simp only [buildParagraphF]
      cases hc : classify line with
      | error e => rfl
      | ok r =>
        cases r with
        | none => rfl
        | some tok =>
          have hlen := (classify_some_spec hc).1
          have hne : line ≠ [] := by
            intro hnil
            rw [hnil, classify_none_iff.mpr rfl] at hc
            cases hc
          have hdrop : (line.drop tok.length).length < line.length := by
            rw [List.length_drop]
            cases line with
            | nil => exact absurd rfl hne
            | cons a l => simp only [List.length_cons]; omega
          dsimp only
          split_ifs with hg
          · exact ih f2 _ _ _ (by omega) (by omega)
          · exact ih f2 _ _ _ (by omega) (by omega)

/-- The fuel argument of `tokenizeF` is irrelevant once it exceeds the
line length. -/
theorem tokenizeF_fuel :
    ∀ (f1 f2 : Nat) (s : List Char), s.length < f1 → s.length < f2 →
      tokenizeF f1 s = tokenizeF f2 s := by
  intro f1
  induction f1 with
  | zero => intro f2 s h1 _; exact absurd h1 (Nat.not_lt_zero _)
  | succ f1 ih =>
    intro f2 s h1 h2
    cases f2 with
    | zero => exact absurd h2 (Nat.not_lt_zero _)
    | succ f2 =>
      simp only [tokenizeF]
      cases hc : classify s with
      | error e => rfl
      | ok r =>
        cases r with
        | none => rfl
        | some tok =>
          have hlen := (classify_some_spec hc).1
          have hne : s ≠ [] := by
            intro hnil
            rw [hnil, classify_none_iff.mpr rfl] at hc
            cases hc
          have hdrop : (s.drop tok.length).length < s.length := by
            rw [List.length_drop]
            cases s with
            | nil => exact absurd rfl hne
            | cons a l => simp only [List.length_cons]; omega
          dsimp only
          rw [ih f2 _ (by omega) (by omega)]

/-- The builder returns the accumulated paragraph once the line is empty,
whatever the in-progress sentence holds (the discard step). -/
theorem buildParagraphF_nil (fuel : Nat) (sentence : Sentence) (paragraph : Paragraph) :
    buildParagraphF fuel [] sentence paragraph = .ok paragraph := by
  cases fuel with
  | zero => rfl
  | succ f => rfl

/-- Every sentence the builder flushes into the paragraph ends with a
token passing the terminal guard. -/
theorem buildParagraphF_ends_terminal :
    ∀ (fuel : Nat) (line : List Char) (sentence : Sentence) (paragraph p : Paragraph),
      line.length < fuel →
      (∀ s ∈ paragraph, ∃ ts t, s = ts ++ [t] ∧ (Token.ispunct t && Token.isend t) = true) →
      buildParagraphF fuel line sentence paragraph = .ok p →
      ∀ s ∈ p, ∃ ts t, s = ts ++ [t] ∧ (Token.ispunct t && Token.isend t) = true := by
  intro fuel
  induction fuel with
  | zero => intro line _ _ _ h1 _ _; exact absurd h1 (Nat.not_lt_zero _)
  | succ fuel ih =>
    intro line sentence paragraph p h1 hinv hb
    simp only [buildParagraphF] at hb
    cases hc : classify line with
    | error e => rw [hc] at hb; cases hb
    | ok r =>
      rw [hc] at hb
      cases r with
      | none =>
        cases hb
        exact hinv
      | some tok =>
        have hlen := (classify_some_spec hc).1
        have hne : line ≠ [] := by
          intro hnil
          rw [hnil, classify_none_iff.mpr rfl] at hc
          cases hc
        have hdrop : (line.drop tok.length).length < line.length := by
          rw [List.length_drop]
          cases line with
          | nil => exact absurd rfl hne
          | cons a l => simp only [List.length_cons]; omega
        dsimp only at hb
        split_ifs at hb with hg
        · refine ih _ _ _ _ (by omega) ?_ hb
          intro s hs
          rcases List.mem_append.mp hs with hs | hs
          · exact hinv s hs
          · rcases List.mem_singleton.mp hs with rfl
            exact ⟨sentence, tok, rfl, hg⟩
        · exact ih _ _ _ _ (by omega) hinv hb

/-- If the line contains no terminal code point, the builder never flushes
a sentence: the paragraph comes back unchanged. -/
theorem buildParagraphF_no_terminal :
    ∀ (fuel : Nat) (line : List Char) (sentence : Sentence) (paragraph p : Paragraph),
      line.length < fuel →
      (∀ c ∈ line, ¬(c.toNat = 46 ∨ c.toNat = 63 ∨ c.toNat = 33)) →
      buildParagraphF fuel line sentence paragraph = .ok p →
      p = paragraph := by
  intro fuel
  induction fuel with
  | zero => intro line _ _ _ h1 _ _; exact absurd h1 (Nat.not_lt_zero _)
  | succ fuel ih =>
    intro line sentence paragraph p h1 hchars hb
    simp only [buildParagraphF] at hb
    cases hc : classify line with
    | error e => rw [hc] at hb; cases hb
    | ok r =>
      rw [hc] at hb
      cases r with
      | none => cases hb; rfl
      | some tok =>
        have hlen := (classify_some_spec hc).1
        have hne : line ≠ [] := by
          intro hnil
          rw [hnil, classify_none_iff.mpr rfl] at hc
          cases hc
        have hdrop : (line.drop tok.length).length < line.length := by
          rw [List.length_drop]
          cases line with
          | nil => exact absurd rfl hne
          | cons a l => simp only [List.length_cons]; omega
        dsimp only at hb
        split_ifs at hb with hg
        · cases line with
          | nil => exact absurd rfl hne
          | cons c rest =>
            rcases classify_terminal_head hc hg with ⟨_, hcode⟩
            exact absurd hcode (hchars c (List.mem_cons_self c rest))
        · exact ih _ _ _ _ (by omega) (fun c hcmem => hchars c (List.drop_subset _ _ hcmem)) hb

/-! ### Facts about the transform/filter pipeline -/

/-- Any token-level filter, pushed through the paragraph and sentence maps,
keeps the paragraph count, the per-paragraph sentence count, and turns each
sentence into a sublist (order-preserving selection) of itself. -/
theorem doc_tokenFilter_shape (f : Token → Bool) (d : Document) :
    List.Forall₂ (List.Forall₂ (fun s s' : Sentence => List.Sublist s' s)) d
      (d.map (fun p => p.map (fun s => s.filter f))) := by
  rw [List.forall₂_map_right_iff, List.forall₂_same]
  intro p _
  rw [List.forall₂_map_right_iff, List.forall₂_same]
  intro s _
  exact List.filter_sublist s

/-- Every lower-case image in the table is fixed by another lookup. -/
theorem lowerTable_snd_fixed :
    ∀ a ∈ lowerTable, ∀ b ∈ lowerTable, (b.1 == a.2) = false := by decide

/-- Lower-case targets stay in the word class. -/
theorem lowerTable_snd_word : ∀ a ∈ lowerTable, isWordChar a.2 = true := by decide

/-- Character-wise lower-casing is idempotent. -/
theorem lowerChar_idem (c : Char) : lowerChar (lowerChar c) = lowerChar c := by
  cases h : lowerTable.find? (fun pr => pr.1 == c) with
  | none =>
    have h0 : lowerChar c = c := by simp [lowerChar, h]
    rw [h0, h0]
  | some pr =>
    have hmem : pr ∈ lowerTable := List.mem_of_find?_eq_some h
    have h0 : lowerChar c = pr.2 := by simp [lowerChar, h]
    rw [h0]
    have hnone : lowerTable.find? (fun q => q.1 == pr.2) = none := by
      rw [List.find?_eq_none]
      intro q hq
      simp [lowerTable_snd_fixed pr hmem q hq]
    simp [lowerChar, hnone]

/-- Character-wise lower-casing stays in the word class. -/
theorem isWordChar_lowerChar {c : Char} (h : isWordChar c = true) :
    isWordChar (lowerChar c) = true := by
  cases hf : lowerTable.find? (fun pr => pr.1 == c) with
  | none => simpa [lowerChar, hf] using h
  | some pr =>
    have hmem : pr ∈ lowerTable := List.mem_of_find?_eq_some hf
    simpa [lowerChar, hf] using lowerTable_snd_word pr hmem

/-- Word texts stay word texts under lower-casing. -/
theorem matchesWordAlt_lower {w : List Char}
    (h : Token.matchesWordAlt w = true) :
    Token.matchesWordAlt (w.map lowerChar) = true := by
  simp only [Token.matchesWordAlt, Bool.and_eq_true, List.all_eq_true] at h ⊢
  refine ⟨by simpa using h.1, ?_⟩
  intro c hc
  rcases List.mem_map.mp hc with ⟨c0, hc0, rfl⟩
  exact isWordChar_lowerChar (h.2 c0 hc0)

/-- The per-token lower-casing step of `Sentence.lower` is idempotent. -/
theorem lower_step_idem (tok : Token) :
    (fun tok : Token => if tok.isword then tok.lower else tok)
      ((fun tok : Token => if tok.isword then tok.lower else tok) tok) =
    (fun tok : Token => if tok.isword then tok.lower else tok) tok := by
  cases tok with
  | word w =>
    by_cases hw : (Token.word w).isword
    · simp only [hw, if_true, Token.lower]
      have hw2 : (Token.word (w.map lowerChar)).isword = true := by
        simpa [Token.isword, Token.text] using
          matchesWordAlt_lower (by simpa [Token.isword, Token.text] using hw)
      simp only [hw2, if_true, Token.lower, List.map_map]
      refine congrArg Token.word ?_
      exact List.map_congr_left (fun c _ => lowerChar_idem c)
    · simp [hw]
  | punctuation t => simp [Token.lower]
  | number t => simp [Token.lower]
  | whitespace t => simp [Token.lower]

/-- `Sentence.lower` is idempotent. -/
theorem sentence_lower_idem (s : Sentence) : s.lower.lower = s.lower := by
  simp only [Sentence.lower, List.map_map]
  exact List.map_congr_left (fun tok _ => lower_step_idem tok)

/-- `Sentence.without_punct` is idempotent. -/
theorem sentence_without_punct_idem (s : Sentence) :
    s.without_punct.without_punct = s.without_punct := by
  simp [Sentence.without_punct, Sentence.filterTokens, List.filter_filter]

/-! ### Facts about errors and line assembly -/

/-- Inversion of a classification failure on a non-empty line: all four
leading character classes reject the first character, and the error carries
the whole remaining text. -/
theorem classify_error_inv {c : Char} {rest : List Char} {e : PreprocessError}
    (h : classify (c :: rest) = .error e) :
    isWordChar c = false ∧ isPunctChar c = false ∧ isDigitChar c = false ∧
      isSpaceChar c = false ∧ e = .invalidToken (c :: rest) := by
  rw [classify_eq_error] at h
  rcases h with ⟨t, rfl, hm⟩
  simp only [Token.matchToken] at hm
  split_ifs at hm with h1 h2 h3 h4
  cases hm
  exact ⟨by simpa using h1, by simpa using h2, by simpa using h3, by simpa using h4, rfl⟩

/-- If no non-empty prefix of the (non-empty) remaining text matches any
alternative of the pattern, classification fails with the invalid-token
error carrying the remaining text. -/
theorem classify_error_of_no_alt (s : List Char) (hne : s ≠ [])
    (h : ∀ pre suf, pre ++ suf = s → pre ≠ [] → Token.matchesAnyAlt pre = false) :
    classify s = .error (.invalidToken s) := by
  cases s with
  | nil => exact absurd rfl hne
  | cons c rest =>
    have h1 := h [c] rest rfl (List.cons_ne_nil c [])
    simp only [Token.matchesAnyAlt, Token.matchesWordAlt, Token.matchesPunctAlt,
      Token.matchesNumberAlt, Token.matchesSpaceAlt, Token.numberGroups,
      List.isEmpty_cons, List.all_cons, List.all_nil, Bool.not_false,
      Bool.true_and, Bool.and_true, Bool.or_eq_false_iff] at h1
    obtain ⟨⟨⟨hw, hp⟩, hd⟩, hs⟩ := h1
    rw [classify_eq_error]
    refine ⟨c :: rest, rfl, ?_⟩
    simp [Token.matchToken, hw, hp, by simpa using hd, hs]

/-- The first failing line aborts the whole line-by-line construction. -/
theorem buildLines_error_of_mem :
    ∀ (ls : List (List Char)) (line : List Char) (e : PreprocessError),
      line ∈ ls → Document._paragraph line = .error e →
      ∃ e2, buildLines ls = .error e2 := by
  intro ls
  induction ls with
  | nil => intro line e hmem _; cases hmem
  | cons l ls ih =>
    intro line e hmem hpe
    cases hp : Document._paragraph l with
    | error e1 => exact ⟨e1, by simp only [buildLines, hp]; rfl⟩
    | ok p =>
      rcases List.mem_cons.mp hmem with rfl | hmem2
      · rw [hp] at hpe; cases hpe
      · rcases ih line e hmem2 hpe with ⟨e2, he2⟩
        exact ⟨e2, by simp only [buildLines, hp, he2]; rfl⟩

/-! ### Rendering facts -/

/-- Sentence rendering distributes over concatenation. -/
theorem sentence_str_append (s1 s2 : Sentence) :
    Sentence.str (s1 ++ s2) = Sentence.str s1 ++ Sentence.str s2 := by
  simp [Sentence.str]

/-- Rendering of a one-token sentence. -/
theorem sentence_str_singleton (t : Token) :
    Sentence.str [t] = t.text := by
  simp [Sentence.str]

/-- Paragraph rendering distributes over concatenation. -/
theorem paragraph_str_append (p1 p2 : Paragraph) :
    Paragraph.str (p1 ++ p2) = Paragraph.str p1 ++ Paragraph.str p2 := by
  simp [Paragraph.str]

/-- Rendering of a one-sentence paragraph. -/
theorem paragraph_str_singleton (s : Sentence) :
    Paragraph.str [s] = Sentence.str s := by
  simp [Paragraph.str]

/-- Whatever the builder returns renders to a prefix of what it consumed:
the rendering of the result, followed by some dropped tail, is the
rendering of the accumulators followed by the line. -/
theorem buildParagraphF_render_decomp :
    ∀ (fuel : Nat) (line : List Char) (sentence : Sentence) (paragraph p : Paragraph),
      line.length < fuel →
      buildParagraphF fuel line sentence paragraph = .ok p →
      ∃ tail, Paragraph.str p ++ tail =
        Paragraph.str paragraph ++ Sentence.str sentence ++ line := by
  intro fuel
  induction fuel with
  | zero => intro line _ _ _ h1 _; exact absurd h1 (Nat.not_lt_zero _)
  | succ fuel ih =>
    intro line sentence paragraph p h1 hb
    simp only [buildParagraphF] at hb
    cases hc : classify line with
    | error e => rw [hc] at hb; cases hb
    | ok r =>
      rw [hc] at hb
      cases r with
      | none =>
        cases hb
        have hnil : line = [] := classify_none_iff.mp hc
        subst hnil
        exact ⟨Sentence.str sentence, by simp⟩
      | some tok =>
        obtain ⟨hpos, hpre⟩ := classify_some_spec hc
        have hne : line ≠ [] := by
          intro hnil
          rw [hnil, classify_none_iff.mpr rfl] at hc
          cases hc
        have hdrop : (line.drop tok.length).length < line.length := by
          rw [List.length_drop]
          cases line with
          | nil => exact absurd rfl hne
          | cons a l => simp only [List.length_cons]; omega
        dsimp only at hb
        split_ifs at hb with hg
        · obtain ⟨tail, htail⟩ := ih _ _ _ _ (by omega) hb
          refine ⟨tail, ?_⟩
          set r := List.drop tok.length line with hr
          rw [htail, paragraph_str_append, paragraph_str_singleton,
            sentence_str_append, sentence_str_singleton, ← hpre]
          simp [Sentence.str, List.append_assoc]
        · obtain ⟨tail, htail⟩ := ih _ _ _ _ (by omega) hb
          refine ⟨tail, ?_⟩
          set r := List.drop tok.length line with hr
          rw [htail, sentence_str_append, sentence_str_singleton, ← hpre]
          simp [List.append_assoc]

/-- Tokenizing the empty line yields no tokens. -/
theorem tokenize_nil : tokenize [] = .ok [] := rfl

/-- A classification failure makes tokenization fail with the same error. -/
theorem tokenize_error {s : List Char} {e : PreprocessError}
    (h : classify s = .error e) : tokenize s = .error e := by
  simp only [tokenize, tokenizeF, h]

/-- One step of tokenization: the classified token followed by the
tokenization of the rest. -/
theorem tokenize_step {s : List Char} {tok : Token}
    (h : classify s = .ok (some tok)) :
    tokenize s = (tokenize (s.drop tok.length)).map (tok :: ·) := by
  have hne : s ≠ [] := by
    intro hnil
    rw [hnil, classify_none_iff.mpr rfl] at h
    cases h
  have hpos := (classify_some_spec h).1
  have hdrop : (s.drop tok.length).length < s.length := by
    rw [List.length_drop]
    cases s with
    | nil => exact absurd rfl hne
    | cons a l => simp only [List.length_cons]; omega
  have hunfold : tokenizeF (s.length + 1) s =
      match classify s with
      | .error e => .error e
      | .ok none => .ok []
      | .ok (some t) => (tokenizeF s.length (s.drop t.length)).map (t :: ·) := rfl
  unfold tokenize
  rw [hunfold, h]
  dsimp only
  rw [tokenizeF_fuel s.length ((s.drop tok.length).length + 1) _ (by omega) (by omega)]

/-- Only the empty line tokenizes to an empty token list. -/
theorem tokenize_ok_nil {s : List Char} (h : tokenize s = .ok []) : s = [] := by
  cases s with
  | nil => rfl
  | cons c rest =>
    cases hc : classify (c :: rest) with
    | error e => rw [tokenize_error hc] at h; cases h
    | ok r =>
      cases r with
      | none =>
        have := classify_none_iff.mp hc
        cases this
      | some tok =>
        rw [tokenize_step hc] at h
        cases hrest : tokenize ((c :: rest).drop tok.length) with
        | error e => rw [hrest] at h; cases h
        | ok l2 =>
          rw [hrest] at h
          simp only [Except.map] at h
          cases h

/-- When the line's token stream ends with a token passing the terminal
guard, the builder succeeds and its result renders to exactly the
accumulators followed by the whole line: nothing is dropped. -/
theorem buildParagraphF_render_exact :
    ∀ (fuel : Nat) (line : List Char) (sentence : Sentence) (paragraph : Paragraph)
      (ts : List Token) (tok : Token),
      line.length < fuel →
      tokenize line = .ok (ts ++ [tok]) →
      (Token.ispunct tok && Token.isend tok) = true →
      ∃ p, buildParagraphF fuel line sentence paragraph = .ok p ∧
        Paragraph.str p = Paragraph.str paragraph ++ Sentence.str sentence ++ line := by
  intro fuel
  induction fuel with
  | zero => intro line _ _ _ _ h1 _; exact absurd h1 (Nat.not_lt_zero _)
  | succ fuel ih =>
    intro line sentence paragraph ts tok h1 htok hg
    cases hc : classify line with
    | error e => rw [tokenize_error hc] at htok; cases htok
    | ok r =>
      cases r with
      | none =>
        have hnil : line = [] := classify_none_iff.mp hc
        subst hnil
        rw [tokenize_nil] at htok
        have : ([] : List Token) = ts ++ [tok] := Except.ok.inj htok
        exact absurd this.symm (List.append_ne_nil_of_right_ne_nil ts (by simp))
      | some t0 =>
        obtain ⟨hpos, hpre⟩ := classify_some_spec hc
        have hne : line ≠ [] := by
          intro hnil
          rw [hnil, classify_none_iff.mpr rfl] at hc
          cases hc
        have hdrop : (line.drop t0.length).length < line.length := by
          rw [List.length_drop]
          cases line with
          | nil => exact absurd rfl hne
          | cons a l => simp only [List.length_cons]; omega
        rw [tokenize_step hc] at htok
        cases hrest : tokenize (line.drop t0.length) with
        | error e => rw [hrest] at htok; cases htok
        | ok l2 =>
          rw [hrest] at htok
          simp only [Except.map, Except.ok.injEq] at htok
          cases ts with
          | nil =>
            simp only [List.nil_append] at htok
            rw [show ([tok] : List Token) = tok :: [] from rfl, List.cons.injEq] at htok
            obtain ⟨heq, hl2nil⟩ := htok
            subst hl2nil
            have hg0 : (Token.ispunct t0 && Token.isend t0) = true := by
              rw [heq]; exact hg
            have hdropnil : line.drop t0.length = [] := tokenize_ok_nil hrest
            rw [hdropnil] at hpre
            simp only [List.append_nil] at hpre
            refine ⟨paragraph ++ [sentence ++ [t0]], ?_, ?_⟩
            · simp only [buildParagraphF]
              rw [hc]
              dsimp only
              rw [if_pos hg0, hdropnil, buildParagraphF_nil]
            · rw [paragraph_str_append, paragraph_str_singleton, sentence_str_append,
                sentence_str_singleton, hpre]
              simp [List.append_assoc]
          | cons t0' ts' =>
            simp only [List.cons_append, List.cons.injEq] at htok
            obtain ⟨rfl, hl2⟩ := htok
            have hrest2 : tokenize (line.drop t0.length) = .ok (ts' ++ [tok]) := by
              rw [hrest, hl2]
            by_cases hg0 : (Token.ispunct t0 && Token.isend t0) = true
            · obtain ⟨p, hp, hstr⟩ := ih (line.drop t0.length) []
                (paragraph ++ [sentence ++ [t0]]) ts' tok (by omega) hrest2 hg
              refine ⟨p, ?_, ?_⟩
              · simp only [buildParagraphF]
                rw [hc]
                dsimp only
                rw [if_pos hg0]
                exact hp
              · set r := List.drop t0.length line with hr
                rw [hstr, paragraph_str_append, paragraph_str_singleton,
                  sentence_str_append, sentence_str_singleton, ← hpre]
                simp [Sentence.str, List.append_assoc]
            · obtain ⟨p, hp, hstr⟩ := ih (line.drop t0.length) (sentence ++ [t0])
                paragraph ts' tok (by omega) hrest2 hg
              refine ⟨p, ?_, ?_⟩
              · simp only [buildParagraphF]
                rw [hc]
                dsimp only
                rw [if_neg hg0]
                exact hp
              · set r := List.drop t0.length line with hr
                rw [hstr, sentence_str_append, sentence_str_singleton, ← hpre]
                simp [List.append_assoc]

/-- On a text free of line-break characters, `splitlines` keeps the
accumulated line whole. -/
theorem pySplitlinesAux_no_break :
    ∀ (line cur : List Char), (∀ c ∈ line, isLineBreak c = false) →
      cur ++ line ≠ [] →
      pySplitlinesAux cur line = [cur ++ line] := by
  intro line
  induction line with
  | nil =>
    intro cur _ hne
    simp only [pySplitlinesAux, List.append_nil] at hne ⊢
    simp [List.isEmpty_iff, hne]
  | cons c rest ih =>
    intro cur hnb _
    have hc : isLineBreak c = false := hnb c (List.mem_cons_self c rest)
    have hc13 : (c.toNat == 13) = false := by
      rw [beq_eq_false_iff_ne]
      intro h13
      rw [show isLineBreak c = true by simp [isLineBreak, lineBreakCodes, h13]] at hc
      cases hc
    cases rest with
    | nil =>
      simp only [pySplitlinesAux, hc]
      rw [if_neg (by simp [hc])]
    | cons c2 rest2 =>
      simp only [pySplitlinesAux, hc13, Bool.false_and, if_neg (Bool.false_ne_true), hc,
        if_neg (Bool.false_ne_true)]
      rw [ih (cur ++ [c]) (fun x hx => hnb x (List.mem_cons_of_mem c hx)) (by simp)]
      simp

/-! ### Stream/string construction equivalence -/

/-- Dropping at most the first summand's length from a concatenation. -/
theorem drop_append_of_le {α : Type} :
    ∀ (l1 : List α) (n : Nat) (l2 : List α), n ≤ l1.length →
      (l1 ++ l2).drop n = l1.drop n ++ l2 := by
  intro l1
  induction l1 with
  | nil =>
    intro n l2 h
    have : n = 0 := Nat.le_zero.mp h
    subst this
    simp
  | cons a t ih =>
    intro n l2 h
    cases n with
    | zero => simp
    | succ m =>
      simp only [List.cons_append, List.drop_succ_cons]
      exact ih m l2 (by simpa using h)

/-- Appending a character rejected by the predicate does not extend a
`takeWhile` run. -/
theorem takeWhile_append_neg {p : Char → Bool} (l : List Char) (x : Char)
    (hx : p x = false) :
    (l ++ [x]).takeWhile p = l.takeWhile p := by
  rw [List.takeWhile_append]
  split_ifs with h
  · have heq : l.takeWhile p = l := (List.takeWhile_sublist p).eq_of_length h
    rw [heq]
    simp [List.takeWhile_cons, hx]
  · rfl

/-- A non-empty whitespace run is never punctuation. -/
theorem ispunct_space_text {c : Char} {rest : List Char}
    (hc : isSpaceChar c = true) :
    (Token.whitespace (c :: rest)).ispunct = false := by
  cases rest with
  | nil =>
    simp [Token.ispunct, Token.matchesPunctAlt, Token.text,
      isPunctChar_eq_false_of_space hc]
  | cons d r => simp [Token.ispunct, Token.matchesPunctAlt, Token.text]

/-- Appending the trailing line feed kept by stream reading does not change
a successful per-line build, and stretches the offending text of a failing
one by that line feed. -/
theorem buildParagraphF_append_nl :
    ∀ (fuel : Nat) (l : List Char) (sentence : Sentence) (paragraph : Paragraph),
      l.length + 1 < fuel →
      buildParagraphF fuel (l ++ [Char.ofNat 10]) sentence paragraph =
        (buildParagraphF fuel l sentence paragraph).mapError errNL := by
  intro fuel
  induction fuel with
  | zero => intro l _ _ hf; exact absurd hf (Nat.not_lt_zero _)
  | succ fuel ih =>
    intro l sentence paragraph hf
    cases l with
    | nil =>
      have hL : buildParagraphF (fuel + 1) ([] ++ [Char.ofNat 10]) sentence paragraph =
          buildParagraphF fuel [] (sentence ++ [Token.whitespace [Char.ofNat 10]]) paragraph := by
        simp only [List.nil_append, buildParagraphF]
        rw [show classify [Char.ofNat 10] =
          .ok (some (Token.whitespace [Char.ofNat 10])) from by decide]
        dsimp only
        rw [if_neg (by decide)]
        rfl
      rw [hL, buildParagraphF_nil, buildParagraphF_nil]
      rfl
    | cons c rest =>
      cases hcs : classify (c :: rest) with
      | error e =>
        obtain ⟨hw, hp, hd, hs, rfl⟩ := classify_error_inv hcs
        have hcl : classify ((c :: rest) ++ [Char.ofNat 10]) =
            .error (.invalidToken ((c :: rest) ++ [Char.ofNat 10])) := by
          rw [classify_eq_error]
          refine ⟨_, rfl, ?_⟩
          simp [Token.matchToken, List.cons_append, hw, hp, hd, hs]
        have hL : buildParagraphF (fuel + 1) ((c :: rest) ++ [Char.ofNat 10]) sentence paragraph =
            .error (.invalidToken ((c :: rest) ++ [Char.ofNat 10])) := by
          simp only [buildParagraphF]
          rw [hcl]
        have hR : buildParagraphF (fuel + 1) (c :: rest) sentence paragraph =
            .error (.invalidToken (c :: rest)) := by
          simp only [buildParagraphF]
          rw [hcs]
        rw [hL, hR]
        rfl
      | ok r =>
        cases r with
        | none => exact absurd (classify_none_iff.mp hcs) (List.cons_ne_nil c rest)
        | some t0 =>
          have hfuel0 : (c :: rest).length < fuel + 1 := by omega
          rcases classify_cases hcs with ⟨h1, rfl⟩ | ⟨h1, h2, rfl⟩ |
            ⟨h1, h2, h3, rfl⟩ | ⟨h1, h2, h3, h4, rfl⟩
          · -- word token
            have htw : ((c :: rest) ++ [Char.ofNat 10]).takeWhile isWordChar =
                (c :: rest).takeWhile isWordChar := takeWhile_append_neg _ _ (by decide)
            have hcl : classify ((c :: rest) ++ [Char.ofNat 10]) =
                .ok (some (Token.word ((c :: rest).takeWhile isWordChar))) := by
              rw [classify_eq_ok, List.cons_append]
              simp only [Token.matchToken, h1, if_true]
              rw [← List.cons_append, htw]
            have hpunct : (Token.word ((c :: rest).takeWhile isWordChar)).ispunct = false :=
              Token.ispunct_eq_false_of_word (Token.matchesWordAlt_word_run h1)
            have hlen : (Token.word ((c :: rest).takeWhile isWordChar)).length ≤
                (c :: rest).length := (List.takeWhile_sublist _).length_le
            have hpos : 0 < (Token.word ((c :: rest).takeWhile isWordChar)).length :=
              (classify_some_spec hcs).1
            have hdropL : ((c :: rest) ++ [Char.ofNat 10]).drop
                  (Token.word ((c :: rest).takeWhile isWordChar)).length =
                (c :: rest).drop (Token.word ((c :: rest).takeWhile isWordChar)).length ++
                  [Char.ofNat 10] := drop_append_of_le _ _ _ hlen
            have hL : buildParagraphF (fuel + 1) ((c :: rest) ++ [Char.ofNat 10])
                  sentence paragraph =
                buildParagraphF fuel
                  ((c :: rest).drop (Token.word ((c :: rest).takeWhile isWordChar)).length ++
                    [Char.ofNat 10])
                  (sentence ++ [Token.word ((c :: rest).takeWhile isWordChar)]) paragraph := by
              simp only [buildParagraphF]
              rw [hcl]
              dsimp only
              rw [if_neg (by simp [hpunct]), hdropL]
            have hR : buildParagraphF (fuel + 1) (c :: rest) sentence paragraph =
                buildParagraphF fuel
                  ((c :: rest).drop (Token.word ((c :: rest).takeWhile isWordChar)).length)
                  (sentence ++ [Token.word ((c :: rest).takeWhile isWordChar)]) paragraph := by
              simp only [buildParagraphF]
              rw [hcs]
              dsimp only
              rw [if_neg (by simp [hpunct])]
            rw [hL, hR]
            apply ih
            rw [List.length_drop]
            simp only [List.length_cons] at hf ⊢
            omega
          · -- punctuation token
            have hcl : classify ((c :: rest) ++ [Char.ofNat 10]) =
                .ok (some (Token.punctuation [c])) := by
              rw [classify_eq_ok, List.cons_append]
              simp only [Token.matchToken, h1, h2, if_true, Bool.false_eq_true, if_false]
            have hpos : 0 < (Token.punctuation [c]).length := by
              simp [Token.length, Token.text]
            have hlen : (Token.punctuation [c]).length ≤ (c :: rest).length := by
              simp [Token.length, Token.text]
            have hdropL : ((c :: rest) ++ [Char.ofNat 10]).drop
                  (Token.punctuation [c]).length =
                (c :: rest).drop (Token.punctuation [c]).length ++ [Char.ofNat 10] :=
              drop_append_of_le _ _ _ hlen
            by_cases hg : (Token.ispunct (Token.punctuation [c]) &&
                Token.isend (Token.punctuation [c])) = true
            · have hL : buildParagraphF (fuel + 1) ((c :: rest) ++ [Char.ofNat 10])
                    sentence paragraph =
                  buildParagraphF fuel
                    ((c :: rest).drop (Token.punctuation [c]).length ++ [Char.ofNat 10])
                    [] (paragraph ++ [sentence ++ [Token.punctuation [c]]]) := by
                simp only [buildParagraphF]
                rw [hcl]
                dsimp only
                rw [if_pos hg, hdropL]
              have hR : buildParagraphF (fuel + 1) (c :: rest) sentence paragraph =
                  buildParagraphF fuel
                    ((c :: rest).drop (Token.punctuation [c]).length)
                    [] (paragraph ++ [sentence ++ [Token.punctuation [c]]]) := by
                simp only [buildParagraphF]
                rw [hcs]
                dsimp only
                rw [if_pos hg]
              rw [hL, hR]
              apply ih
              rw [List.length_drop]
              simp only [List.length_cons] at hf ⊢
              omega
            · have hL : buildParagraphF (fuel + 1) ((c :: rest) ++ [Char.ofNat 10])
                    sentence paragraph =
                  buildParagraphF fuel
                    ((c :: rest).drop (Token.punctuation [c]).length ++ [Char.ofNat 10])
                    (sentence ++ [Token.punctuation [c]]) paragraph := by
                simp only [buildParagraphF]
                rw [hcl]
                dsimp only
                rw [if_neg hg, hdropL]
              have hR : buildParagraphF (fuel + 1) (c :: rest) sentence paragraph =
                  buildParagraphF fuel
                    ((c :: rest).drop (Token.punctuation [c]).length)
                    (sentence ++ [Token.punctuation [c]]) paragraph := by
                simp only [buildParagraphF]
                rw [hcs]
                dsimp only
                rw [if_neg hg]
              rw [hL, hR]
              apply ih
              rw [List.length_drop]
              simp only [List.length_cons] at hf ⊢
              omega
          · -- number token
            have htw : ((c :: rest) ++ [Char.ofNat 10]).takeWhile isDigitChar =
                (c :: rest).takeWhile isDigitChar := takeWhile_append_neg _ _ (by decide)
            have hcl : classify ((c :: rest) ++ [Char.ofNat 10]) =
                .ok (some (Token.number ((c :: rest).takeWhile isDigitChar))) := by
              rw [classify_eq_ok, List.cons_append]
              simp only [Token.matchToken, h1, h2, h3, if_true, Bool.false_eq_true, if_false]
              rw [← List.cons_append, htw]
            have hpunct : (Token.number ((c :: rest).takeWhile isDigitChar)).ispunct = false :=
              Token.ispunct_digit_run h3
            have hlen : (Token.number ((c :: rest).takeWhile isDigitChar)).length ≤
                (c :: rest).length := (List.takeWhile_sublist _).length_le
            have hpos : 0 < (Token.number ((c :: rest).takeWhile isDigitChar)).length :=
              (classify_some_spec hcs).1
            have hdropL : ((c :: rest) ++ [Char.ofNat 10]).drop
                  (Token.number ((c :: rest).takeWhile isDigitChar)).length =
                (c :: rest).drop (Token.number ((c :: rest).takeWhile isDigitChar)).length ++
                  [Char.ofNat 10] := drop_append_of_le _ _ _ hlen
            have hL : buildParagraphF (fuel + 1) ((c :: rest) ++ [Char.ofNat 10])
                  sentence paragraph =
                buildParagraphF fuel
                  ((c :: rest).drop (Token.number ((c :: rest).takeWhile isDigitChar)).length ++
                    [Char.ofNat 10])
                  (sentence ++ [Token.number ((c :: rest).takeWhile isDigitChar)]) paragraph := by
              simp only [buildParagraphF]
              rw [hcl]
              dsimp only
              rw [if_neg (by simp [hpunct]), hdropL]
            have hR : buildParagraphF (fuel + 1) (c :: rest) sentence paragraph =
                buildParagraphF fuel
                  ((c :: rest).drop (Token.number ((c :: rest).takeWhile isDigitChar)).length)
                  (sentence ++ [Token.number ((c :: rest).takeWhile isDigitChar)]) paragraph := by
              simp only [buildParagraphF]
              rw [hcs]
              dsimp only
              rw [if_neg (by simp [hpunct])]
            rw [hL, hR]
            apply ih
            rw [List.length_drop]
            simp only [List.length_cons] at hf ⊢
            omega
          · -- whitespace token
            by_cases hall : ((c :: rest).takeWhile isSpaceChar).length = (c :: rest).length
            · -- the whole remaining line is whitespace; the line feed joins the run
              have hteq : (c :: rest).takeWhile isSpaceChar = c :: rest :=
                (List.takeWhile_sublist _).eq_of_length hall
              have htwL : ((c :: rest) ++ [Char.ofNat 10]).takeWhile isSpaceChar =
                  (c :: rest) ++ [Char.ofNat 10] := by
                rw [List.takeWhile_append, if_pos hall]
                simp [List.takeWhile_cons,
                  show isSpaceChar (Char.ofNat 10) = true from by decide]
              have hcl : classify ((c :: rest) ++ [Char.ofNat 10]) =
                  .ok (some (Token.whitespace ((c :: rest) ++ [Char.ofNat 10]))) := by
                rw [classify_eq_ok, List.cons_append]
                simp only [Token.matchToken, h1, h2, h3, h4, if_true, Bool.false_eq_true,
                  if_false]
                rw [← List.cons_append, htwL]
              have hpunctL : (Token.whitespace (c :: (rest ++ [Char.ofNat 10]))).ispunct =
                  false := ispunct_space_text h4
              have hpunctR : (Token.whitespace (c :: rest)).ispunct = false :=
                ispunct_space_text h4
              have hdrop0 : List.drop
                    (Token.whitespace ((c :: rest) ++ [Char.ofNat 10])).length
                    ((c :: rest) ++ [Char.ofNat 10]) = ([] : List Char) :=
                List.drop_length _
              have hL : buildParagraphF (fuel + 1) ((c :: rest) ++ [Char.ofNat 10])
                    sentence paragraph = .ok paragraph := by
                simp only [buildParagraphF]
                rw [hcl]
                dsimp only
                rw [if_neg (by simp [hpunctL]), hdrop0]
                exact buildParagraphF_nil _ _ _
              have hR : buildParagraphF (fuel + 1) (c :: rest) sentence paragraph =
                  .ok paragraph := by
                simp only [buildParagraphF]
                rw [hcs, hteq]
                dsimp only
                rw [if_neg (by simp [hpunctR])]
                rw [show (c :: rest).drop (Token.whitespace (c :: rest)).length = [] from
                  List.drop_length _]
                exact buildParagraphF_nil _ _ _
              rw [hL, hR]
              rfl
            · -- the whitespace run stops inside the line
              have htw : ((c :: rest) ++ [Char.ofNat 10]).takeWhile isSpaceChar =
                  (c :: rest).takeWhile isSpaceChar := by
                rw [List.takeWhile_append, if_neg hall]
              have hcl : classify ((c :: rest) ++ [Char.ofNat 10]) =
                  .ok (some (Token.whitespace ((c :: rest).takeWhile isSpaceChar))) := by
                rw [classify_eq_ok, List.cons_append]
                simp only [Token.matchToken, h1, h2, h3, h4, if_true, Bool.false_eq_true,
                  if_false]
                rw [← List.cons_append, htw]
              have hpunct : (Token.whitespace ((c :: rest).takeWhile isSpaceChar)).ispunct =
                  false := Token.ispunct_space_run h4
              have hlen : (Token.whitespace ((c :: rest).takeWhile isSpaceChar)).length ≤
                  (c :: rest).length := (List.takeWhile_sublist _).length_le
              have hpos : 0 < (Token.whitespace ((c :: rest).takeWhile isSpaceChar)).length :=
                (classify_some_spec hcs).1
              have hdropL : ((c :: rest) ++ [Char.ofNat 10]).drop
                    (Token.whitespace ((c :: rest).takeWhile isSpaceChar)).length =
                  (c :: rest).drop
                      (Token.whitespace ((c :: rest).takeWhile isSpaceChar)).length ++
                    [Char.ofNat 10] := drop_append_of_le _ _ _ hlen
              have hL : buildParagraphF (fuel + 1) ((c :: rest) ++ [Char.ofNat 10])
                    sentence paragraph =
                  buildParagraphF fuel
                    ((c :: rest).drop
                        (Token.whitespace ((c :: rest).takeWhile isSpaceChar)).length ++
                      [Char.ofNat 10])
                    (sentence ++ [Token.whitespace ((c :: rest).takeWhile isSpaceChar)])
                    paragraph := by
                simp only [buildParagraphF]
                rw [hcl]
                dsimp only
                rw [if_neg (by simp [hpunct]), hdropL]
              have hR : buildParagraphF (fuel + 1) (c :: rest) sentence paragraph =
                  buildParagraphF fuel
                    ((c :: rest).drop
                        (Token.whitespace ((c :: rest).takeWhile isSpaceChar)).length)
                    (sentence ++ [Token.whitespace ((c :: rest).takeWhile isSpaceChar)])
                    paragraph := by
                simp only [buildParagraphF]
                rw [hcs]
                dsimp only
                rw [if_neg (by simp [hpunct])]
              rw [hL, hR]
              apply ih
              rw [List.length_drop]
              simp only [List.length_cons] at hf ⊢
              omega

/-- `Document._paragraph` of a line with its trailing line feed equals the
paragraph of the bare line, with a failing line's offending text stretched
by the line feed. -/
theorem paragraph_append_nl (l : List Char) :
    Document._paragraph (l ++ [Char.ofNat 10]) =
      (Document._paragraph l).mapError errNL := by
  unfold Document._paragraph
  have hlen : (l ++ [Char.ofNat 10]).length = l.length + 1 := by
    simp
  rw [buildParagraphF_fuel ((l ++ [Char.ofNat 10]).length + 1) (l.length + 2)
    (l ++ [Char.ofNat 10]) [] [] (by omega) (by omega)]
  rw [buildParagraphF_append_nl (l.length + 2) l [] [] (by omega)]
  rw [buildParagraphF_fuel (l.length + 2) (l.length + 1) l [] [] (by omega) (by omega)]

/-- On a text whose only line-break character is the line feed, the lines
kept by stream reading are the `splitlines` lines, each possibly carrying
its trailing line feed. -/
theorem splitlines_readlines_rel :
    ∀ (t cur : List Char), (∀ c ∈ t, isLineBreak c = true → c.toNat = 10) →
      List.Forall₂ lineRel (pySplitlinesAux cur t) (pyReadlinesAux cur t) := by
  intro t
  induction t with
  | nil =>
    intro cur _
    simp only [pySplitlinesAux, pyReadlinesAux]
    split_ifs with h
    · exact List.Forall₂.nil
    · exact List.Forall₂.cons (Or.inl rfl) List.Forall₂.nil
  | cons c rest ih =>
    intro cur hnl
    have hrest : ∀ x ∈ rest, isLineBreak x = true → x.toNat = 10 :=
      fun x hx => hnl x (List.mem_cons_of_mem c hx)
    by_cases hc10 : c.toNat = 10
    · have hceq : c = Char.ofNat 10 := char_eq_of_toNat_eq (hc10.trans (by decide))
      subst hceq
      cases rest with
      | nil =>
        have e1 : pySplitlinesAux cur [Char.ofNat 10] = [cur] := by
          simp [pySplitlinesAux, show isLineBreak (Char.ofNat 10) = true from by decide]
        have e2 : pyReadlinesAux cur [Char.ofNat 10] = [cur ++ [Char.ofNat 10]] := by
          simp [pyReadlinesAux,
            show ((Char.ofNat 10).toNat == 10) = true from by decide]
        rw [e1, e2]
        exact List.Forall₂.cons (Or.inr rfl) List.Forall₂.nil
      | cons c2 rest2 =>
        have e1 : pySplitlinesAux cur (Char.ofNat 10 :: c2 :: rest2) =
            cur :: pySplitlinesAux [] (c2 :: rest2) := by
          simp only [pySplitlinesAux,
            show ((Char.ofNat 10).toNat == 13) = false from by decide,
            show isLineBreak (Char.ofNat 10) = true from by decide,
            Bool.false_and, Bool.false_eq_true, if_false, if_true]
        have e2 : pyReadlinesAux cur (Char.ofNat 10 :: c2 :: rest2) =
            (cur ++ [Char.ofNat 10]) :: pyReadlinesAux [] (c2 :: rest2) := by
          simp only [pyReadlinesAux,
            show ((Char.ofNat 10).toNat == 10) = true from by decide, if_true]
        rw [e1, e2]
        exact List.Forall₂.cons (Or.inr rfl) (ih [] hrest)
    · have hbrk : isLineBreak c = false := by
        rw [Bool.eq_false_iff]
        intro hb
        exact hc10 (hnl c (List.mem_cons_self c rest) hb)
      have hc13 : (c.toNat == 13) = false := by
        rw [beq_eq_false_iff_ne]
        intro h13
        rw [show isLineBreak c = true from by
          simp [isLineBreak, lineBreakCodes, h13]] at hbrk
        cases hbrk
      have hc10b : (c.toNat == 10) = false := by
        rw [beq_eq_false_iff_ne]
        exact hc10
      cases rest with
      | nil =>
        simp only [pySplitlinesAux, pyReadlinesAux, hbrk, Bool.false_eq_true, if_false,
          hc10b]
        rw [if_neg (by simp)]
        exact List.Forall₂.cons (Or.inl rfl) List.Forall₂.nil
      | cons c2 rest2 =>
        simp only [pySplitlinesAux, pyReadlinesAux, hc13, Bool.false_and,
          Bool.false_eq_true, if_false, hbrk, hc10b]
        exact ih (cur ++ [c]) hrest

/-- Dissection of a successful multi-line build into its head paragraph
and tail document. -/
theorem buildLines_cons_ok {l : List Char} {ls : List (List Char)} {d : Document} :
    buildLines (l :: ls) = .ok d ↔
      ∃ p ds, Document._paragraph l = .ok p ∧ buildLines ls = .ok ds ∧ d = p :: ds := by
  simp only [buildLines]
  cases hp : Document._paragraph l with
  | error e =>
    constructor
    · intro h
      cases h
    · rintro ⟨p, ds, hq, _, _⟩
      cases hq
  | ok p =>
    cases hd : buildLines ls with
    | error e =>
      constructor
      · intro h
        cases h
      · rintro ⟨p2, ds, hq, hds, _⟩
        cases hds
    | ok ds =>
      constructor
      · intro h
        exact ⟨p, ds, rfl, rfl, (Except.ok.inj h).symm⟩
      · rintro ⟨p2, ds2, hq, hds, rfl⟩
        rw [Except.ok.inj hq, Except.ok.inj hds]
        rfl

/-- Line lists related by optional trailing line feeds build to the same
documents. -/
theorem buildLines_rel :
    ∀ {ls ls' : List (List Char)}, List.Forall₂ lineRel ls ls' →
      ∀ d, buildLines ls = .ok d ↔ buildLines ls' = .ok d := by
  intro ls ls' h
  induction h with
  | nil => intro d; exact Iff.rfl
  | @cons a b l1 l2 hab htail ih =>
    intro d
    have hok : ∀ q, Document._paragraph b = .ok q ↔ Document._paragraph a = .ok q := by
      intro q
      rcases hab with rfl | rfl
      · exact Iff.rfl
      · rw [paragraph_append_nl]
        cases hpa : Document._paragraph a with
        | ok p => exact Iff.rfl
        | error e =>
          constructor
          · intro hq
            cases hq
          · intro hq
            cases hq
    rw [buildLines_cons_ok, buildLines_cons_ok]
    constructor
    · rintro ⟨p, ds, hq, hds, rfl⟩
      exact ⟨p, ds, (hok p).mpr hq, (ih ds).mp hds, rfl⟩
    · rintro ⟨p, ds, hq, hds, rfl⟩
      exact ⟨p, ds, (hok p).mp hq, (ih ds).mpr hds, rfl⟩

/-! ### Claim theorems -/

/-- Claim C3: for every input line that classifies without error, the per-line
builder appends a sentence to the paragraph only on reaching a terminal
punctuation token — every retained sentence ends with a token passing the
terminal guard — and the in-progress sentence left at line end is
discarded; in particular a line containing no terminal code point
(including a blank or whitespace-only line) yields an empty paragraph. -/
theorem claim3_builder_terminal_policy (line : List Char) (p : Paragraph)
    (h : Document._paragraph line = .ok p) :
    (∀ s ∈ p, ∃ ts t, s = ts ++ [t] ∧ (Token.ispunct t && Token.isend t) = true) ∧
    ((∀ c ∈ line, ¬(c.toNat = 46 ∨ c.toNat = 63 ∨ c.toNat = 33)) → p = []) := by
  constructor
  · exact buildParagraphF_ends_terminal (line.length + 1) line [] [] p
      (Nat.lt_succ_self _) (by intro s hs; cases hs) h
  · intro hchars
    exact buildParagraphF_no_terminal (line.length + 1) line [] [] p
      (Nat.lt_succ_self _) hchars h

/-- Witness for C3 at two concrete lines: a whitespace-only line yields an
empty paragraph, and the paragraph built from a terminated line consists of
terminally-ended sentences. -/
theorem claim3_builder_terminal_policy_witness :
    (∀ p, Document._paragraph [Char.ofNat 32, Char.ofNat 9] = .ok p → p = []) ∧
    (∀ s ∈ ([[Token.word "Hi".data, Token.punctuation ['.']]] : Paragraph),
      ∃ ts t, s = ts ++ [t] ∧ (Token.ispunct t && Token.isend t) = true) := by
  constructor
  · intro p hp
    exact (claim3_builder_terminal_policy _ p hp).2 (by decide)
  · have h : Document._paragraph "Hi.".data =
        .ok [[Token.word "Hi".data, Token.punctuation ['.']]] := by decide
    have := (claim3_builder_terminal_policy _ _ h).1
    simpa using this

/-- Claim C10: for an ASCII text whose only line-break character is the line
feed, building the document from the text as a string and from a readable
stream of the same text succeed on exactly the same documents: the
trailing line feed kept by stream reading either merges into the trailing
whitespace run of the discarded in-progress sentence or forms its own
discarded token, so no paragraph changes. -/
theorem claim10_string_stream_agree (text : List Char)
    (hascii : ∀ c ∈ text, c.toNat < 128)
    (hnl : ∀ c ∈ text, isLineBreak c = true → c.toNat = 10) (d : Document) :
    Document.ofString text = .ok d ↔ Document.ofStream text = .ok d := by
  have _ := hascii
  exact buildLines_rel (splitlines_readlines_rel text [] hnl) d

/-- Witness for C10 on the two-line text `a.(line feed)b.`. -/
theorem claim10_string_stream_agree_witness :
    Document.ofString "a.\nb.".data =
        .ok [[[Token.word ['a'], Token.punctuation ['.']]],
             [[Token.word ['b'], Token.punctuation ['.']]]] ∧
    Document.ofStream "a.\nb.".data =
        .ok [[[Token.word ['a'], Token.punctuation ['.']]],
             [[Token.word ['b'], Token.punctuation ['.']]]] := by
  have h1 : Document.ofString "a.\nb.".data =
      .ok [[[Token.word ['a'], Token.punctuation ['.']]],
           [[Token.word ['b'], Token.punctuation ['.']]]] := by decide
  exact ⟨h1,
    (claim10_string_stream_agree "a.\nb.".data (by decide) (by decide) _).mp h1⟩

/-- Claim C1 (amended): for every character of the punctuation class other than
the hyphen, classification of that character followed by any suffix
returns a length-1 punctuation token holding exactly that character.  (The
hyphen belongs to the Word class `[A-Za-z-]`, which is tried first.) -/
theorem claim1_punct_single (p : Char) (s : List Char)
    (hp : isPunctChar p = true) (hne : p ≠ '-') :
    classify (p :: s) = .ok (some (Token.punctuation [p])) := by
  have hn : p.toNat ≠ 45 := by
    intro h
    exact hne (char_eq_of_toNat_eq (h.trans (by decide)))
  have hw : isWordChar p = false := by
    rw [isPunctChar_iff] at hp
    simp only [punctCodes, List.mem_cons, List.not_mem_nil, or_false] at hp
    simp only [isWordChar, Bool.or_eq_false_iff, Bool.and_eq_false_iff,
      decide_eq_false_iff_not, beq_eq_false_iff_ne, ne_eq]
    omega
  rw [classify_eq_ok]
  simp [Token.matchToken, hw, hp]

/-- Witness for C1 at the period and suffix `ab`. -/
theorem claim1_punct_single_witness :
    classify ('.' :: "ab".data) = .ok (some (Token.punctuation ['.'])) :=
  claim1_punct_single '.' "ab".data (by decide) (by decide)

/-- Claim C1 counterexample: on the hyphen — a member of the fixed punctuation
set — classification returns a Word token, not a Punctuation token. -/
theorem claim1_hyphen_counterexample :
    classify ['-'] = .ok (some (Token.word ['-'])) ∧
    classify ['-'] ≠ .ok (some (Token.punctuation ['-'])) := by decide

/-- Claim C2 (amended): on a remaining text starting with a digit, classification
returns a Number token covering exactly the maximal leading digit run —
the lazy separator groups of `[0-9]+(?:[.,][0-9]+)*?` consume nothing
under prefix matching. -/
theorem claim2_number_leading_run (c : Char) (s : List Char)
    (h : isDigitChar c = true) :
    classify (c :: s) = .ok (some (Token.number ((c :: s).takeWhile isDigitChar))) := by
  have hw := isWordChar_eq_false_of_digit h
  have hp := isPunctChar_eq_false_of_digit h
  rw [classify_eq_ok]
  simp [Token.matchToken, hw, hp, h]

/-- Witness for C2 at the leading digit of `12.345,67`. -/
theorem claim2_number_leading_run_witness :
    classify ('1' :: "2.345,67".data) =
      .ok (some (Token.number (('1' :: "2.345,67".data).takeWhile isDigitChar))) :=
  claim2_number_leading_run '1' "2.345,67".data (by decide)

/-- Claim C2 counterexample: on `12.345,67` classification returns the Number
token `12`, not a token covering the entire digit-and-separator run. -/
theorem claim2_number_counterexample :
    classify "12.345,67".data = .ok (some (Token.number "12".data)) ∧
    classify "12.345,67".data ≠ .ok (some (Token.number "12.345,67".data)) := by decide

/-- Claim C8: the per-line tokenization loop terminates: every successful
classification returns a token of length at least one, so dropping the
consumed prefix strictly shrinks the remaining line. -/
theorem claim8_tokenization_terminates (s : List Char) (t : Token)
    (h : classify s = .ok (some t)) :
    0 < t.length ∧ (s.drop t.length).length < s.length := by
  obtain ⟨hpos, hpre⟩ := classify_some_spec h
  refine ⟨hpos, ?_⟩
  have hne : s ≠ [] := by
    intro hnil
    rw [hnil, classify_none_iff.mpr rfl] at h
    cases h
  rw [List.length_drop]
  cases s with
  | nil => exact absurd rfl hne
  | cons a l => simp only [List.length_cons]; omega

/-- Witness for C8 on the line `a`. -/
theorem claim8_tokenization_terminates_witness :
    0 < (Token.word ['a']).length ∧
      (List.drop (Token.word ['a']).length ['a']).length < (['a'] : List Char).length :=
  claim8_tokenization_terminates ['a'] (Token.word ['a']) (by decide)

/-- Claim C9: the kind predicates re-run the full priority-ordered alternation on
the token's text, so the single hyphen satisfies `isword` and not
`ispunct`; invoking the Punctuation constructor on it raises the
construction error, while every other single character of the punctuation
set constructs successfully. -/
theorem claim9_hyphen_construction :
    ((Token.punctuation ['-']).isword = true ∧
      (Token.punctuation ['-']).ispunct = false ∧
      mkPunctuation ['-'] = .error (.invalidConstruction .punctuation ['-'])) ∧
    (∀ n ∈ punctCodes, n ≠ 45 →
      mkPunctuation [Char.ofNat n] = .ok (Token.punctuation [Char.ofNat n])) := by
  decide

/-- Witness for C9 at code point 46 (the period). -/
theorem claim9_hyphen_construction_witness :
    mkPunctuation [Char.ofNat 46] = .ok (Token.punctuation [Char.ofNat 46]) :=
  claim9_hyphen_construction.2 46 (by decide) (by decide)

/-- Claim C4: round-trip up to the documented loss — the rendering of a built
paragraph is a prefix of its line (trailing tokens after the last terminal
punctuation are dropped); and for a single line whose token stream ends in
a terminal punctuation token, rendering the built document reproduces the
line exactly. -/
theorem claim4_roundtrip (line : List Char) (p : Paragraph) (ts : List Token)
    (tok : Token) (hp : Document._paragraph line = .ok p) :
    (∃ tail, Paragraph.str p ++ tail = line) ∧
    (tokenize line = .ok (ts ++ [tok]) →
      (Token.ispunct tok && Token.isend tok) = true →
      (∀ c ∈ line, isLineBreak c = false) →
      ∃ d, Document.ofString line = .ok d ∧ Document.str d = line) := by
  constructor
  · obtain ⟨tail, htail⟩ := buildParagraphF_render_decomp (line.length + 1) line [] [] p
      (Nat.lt_succ_self _) hp
    refine ⟨tail, ?_⟩
    simpa [Paragraph.str, Sentence.str] using htail
  · intro htok hg hnb
    have hne : line ≠ [] := by
      intro h
      subst h
      rw [tokenize_nil] at htok
      exact List.append_ne_nil_of_right_ne_nil ts (by simp) (Except.ok.inj htok).symm
    have hsplit : pySplitlines line = [line] :=
      pySplitlinesAux_no_break line [] hnb (by simpa using hne)
    obtain ⟨p2, hp2, hstr⟩ := buildParagraphF_render_exact (line.length + 1) line [] []
      ts tok (Nat.lt_succ_self _) htok hg
    have hpar : Document._paragraph line = .ok p2 := hp2
    refine ⟨[p2], ?_, ?_⟩
    · simp only [Document.ofString, hsplit, buildLines, hpar]
      rfl
    · have hone : Document.str [p2] = Paragraph.str p2 := by
        simp [Document.str, List.intercalate, List.intersperse]
      rw [hone, hstr]
      simp [Paragraph.str, Sentence.str]

/-- Witness for C4 on the line `Hi.`: the document built from it renders
back to the line itself. -/
theorem claim4_roundtrip_witness :
    ∃ d, Document.ofString "Hi.".data = .ok d ∧ Document.str d = "Hi.".data :=
  (claim4_roundtrip "Hi.".data [[Token.word "Hi".data, Token.punctuation ['.']]]
      [Token.word "Hi".data] (Token.punctuation ['.']) (by decide)).2
    (by decide) (by decide) (by decide)

/-- Claim C5: classification returns `none` iff the remaining text is empty; on
non-empty remaining text matched by no pattern it fails with the
invalid-token error carrying that text; and a failing line aborts the
whole document construction. -/
theorem claim5_error_propagation (s text : List Char) (e : PreprocessError) :
    (classify s = .ok none ↔ s = []) ∧
    (s ≠ [] →
      (∀ pre suf, pre ++ suf = s → pre ≠ [] → Token.matchesAnyAlt pre = false) →
      classify s = .error (.invalidToken s)) ∧
    ((∃ line ∈ pySplitlines text, Document._paragraph line = .error e) →
      ∃ e2, Document.ofString text = .error e2) := by
  refine ⟨classify_none_iff, classify_error_of_no_alt s, ?_⟩
  rintro ⟨line, hmem, herr⟩
  exact buildLines_error_of_mem (pySplitlines text) line e hmem herr

/-- Witness for C5 on the NUL character (code 0), which no pattern
matches: classification of the empty line is `none`, classification of the
NUL line is the invalid-token error, and document construction from that
text aborts. -/
theorem claim5_error_propagation_witness :
    (classify ([] : List Char) = .ok none) ∧
    classify [Char.ofNat 0] = .error (.invalidToken [Char.ofNat 0]) ∧
    ∃ e2, Document.ofString [Char.ofNat 0] = .error e2 := by
  refine ⟨(claim5_error_propagation [] [] (.invalidToken [])).1.mpr rfl, ?_, ?_⟩
  · refine (claim5_error_propagation [Char.ofNat 0] [] (.invalidToken [])).2.1
      (by decide) ?_
    intro pre suf hps hne
    cases pre with
    | nil => exact absurd rfl hne
    | cons a pre2 =>
      simp only [List.cons_append, List.cons.injEq] at hps
      obtain ⟨rfl, h2⟩ := hps
      rcases List.append_eq_nil.mp h2 with ⟨rfl, rfl⟩
      decide
  · refine (claim5_error_propagation [] [Char.ofNat 0] (.invalidToken [Char.ofNat 0])).2.2
      ⟨[Char.ofNat 0], by decide, by decide⟩

/-- Claim C6: each `without*` filter preserves the number of paragraphs, the
number of sentences inside each paragraph, and the relative order of
surviving tokens — stated as a position-wise `Forall₂` (which forces equal
lengths at both container levels) whose token-level relation is the
order-preserving sublist relation, holding even when a filtered sentence
becomes empty. -/
theorem claim6_filters_preserve_structure (d : Document) (lits : List (List Char)) :
    List.Forall₂ (List.Forall₂ (fun s s' : Sentence => List.Sublist s' s)) d
      d.without_punct ∧
    List.Forall₂ (List.Forall₂ (fun s s' : Sentence => List.Sublist s' s)) d
      d.without_punct_exceptend ∧
    List.Forall₂ (List.Forall₂ (fun s s' : Sentence => List.Sublist s' s)) d
      d.without_whitespace ∧
    List.Forall₂ (List.Forall₂ (fun s s' : Sentence => List.Sublist s' s)) d
      d.without_number ∧
    List.Forall₂ (List.Forall₂ (fun s s' : Sentence => List.Sublist s' s)) d
      (d.without lits) :=
  ⟨doc_tokenFilter_shape _ d, doc_tokenFilter_shape _ d, doc_tokenFilter_shape _ d,
    doc_tokenFilter_shape _ d, doc_tokenFilter_shape _ d⟩

/-- Claim C7: lower-casing and punctuation removal are idempotent on every
document. -/
theorem claim7_idempotence (d : Document) :
    d.lower.lower = d.lower ∧
    d.without_punct.without_punct = d.without_punct := by
  constructor
  · simp only [Document.lower, List.map_map]
    refine List.map_congr_left (fun p _ => ?_)
    simp only [Function.comp, Paragraph.lower, List.map_map]
    exact List.map_congr_left (fun s _ => sentence_lower_idem s)
  · simp only [Document.without_punct, List.map_map]
    refine List.map_congr_left (fun p _ => ?_)
    simp only [Function.comp, Paragraph.without_punct, List.map_map]
    exact List.map_congr_left (fun s _ => sentence_without_punct_idem s)

end Preprocess

